import Mathlib

set_option maxHeartbeats 1000000

/-! Verification of the PC-BASIC value engine (`pcbasic/basic/values.py`):
number formatting, integer bit operations, string comparison and the
`CVI`/`CVS`/`CVD`/`INSTR` functions.  The MBF float internals live in
`numbers.py`, which is not part of the sources; those pieces are modelled
from the specification and marked as such. -/

/-- One decimal digit rendered as a character. -/
def digitChar (d : Nat) : Char := Char.ofNat (48 + d)

/-- Decimal digits of a natural number, most significant first; fuel-driven
so that the kernel can evaluate it. -/
def natDigitsGo : Nat → Nat → List Nat
  | 0, n => [n % 10]
  | fuel + 1, n => if n < 10 then [n] else natDigitsGo fuel (n / 10) ++ [n % 10]

/-- Decimal digits of a natural number, most significant first. -/
def natDigits (n : Nat) : List Nat := natDigitsGo n n

/-- Decimal representation of a natural number as characters; embeds
the Python expression `str(abs(num))` used by `_get_digits`. -/
def natDigitChars (n : Nat) : List Char := (natDigits n).map digitChar

/-- Remove trailing zero characters; embeds the Python `rstrip('0')`. -/
def rstripZeros (l : List Char) : List Char :=
  (l.reverse.dropWhile (fun c => c == '0')).reverse

/-- Embeds `_get_digits` from values.py: pad the digit string of `abs num`
to `digits` characters, truncate to at most `digits`, optionally stripping
trailing zeros. -/
def getDigits (num : Int) (digits : Nat) (removeTrailing : Bool) : List Char :=
  let digitstr := natDigitChars num.natAbs
  let padded := List.replicate (digits - digitstr.length) '0' ++ digitstr.take digits
  if removeTrailing then rstripZeros padded else padded

/-- Embeds `_scientific_notation` from values.py: digits with a point after
`digitsToDot` places, the exponent letter, an explicit exponent sign, and a
two-digit exponent. -/
def sci_format (digitstr : List Char) (exp10 : Int) (expSign : Char)
    (digitsToDot : Nat) (forceDot : Bool) : List Char :=
  let valstr := digitstr.take digitsToDot
  let valstr :=
    if digitsToDot < digitstr.length then valstr ++ '.' :: digitstr.drop digitsToDot
    else if digitstr.length = digitsToDot ∧ forceDot then valstr ++ ['.']
    else valstr
  let exponent := exp10 - (digitsToDot : Int) + 1
  (valstr ++ [expSign] ++ (if exponent < 0 then ['-'] else ['+'])) ++
    getDigits exponent 2 false

/-- Embeds `_decimal_notation` from values.py: place the radix point at
position `exp10 + 1`, padding with zeros; append the type sigil according to
the legacy rules (`#` always, `!` only when the number carries no point). -/
def dec_format (digitstr : List Char) (exp10 : Int) (typeSign : Option Char)
    (forceDot : Bool) : List Char :=
  let e := exp10 + 1
  if (digitstr.length : Int) ≤ e then
    let valstr := digitstr ++ List.replicate (e - (digitstr.length : Int)).toNat '0'
    let valstr := if forceDot then valstr ++ ['.'] else valstr
    if forceDot = false ∨ typeSign = some '#' then valstr ++ typeSign.toList else valstr
  else if 0 < e then
    let valstr := digitstr.take e.toNat ++ '.' :: digitstr.drop e.toNat
    if typeSign = some '#' then valstr ++ typeSign.toList else valstr
  else
    let valstr := (if forceDot then ['0'] else []) ++
      '.' :: (List.replicate (-e).toNat '0' ++ digitstr)
    if typeSign = some '#' then valstr ++ typeSign.toList else valstr

/-- Round `a / b` to the nearest integer, ties to even. -/
def roundHalfEvenDiv (a b : Nat) : Nat :=
  let q := a / b
  let r := a % b
  if b < 2 * r then q + 1
  else if 2 * r < b then q
  else if q % 2 = 0 then q else q + 1

/-- Round `(p / q) / base ^ k` to the nearest integer, ties to even. -/
def ratRoundScale (base p q : Nat) (k : Int) : Nat :=
  if 0 ≤ k then roundHalfEvenDiv p (q * base ^ k.toNat)
  else roundHalfEvenDiv (p * base ^ (-k).toNat) q

/-- Fuel-driven digit counter backing `digitsLen`. -/
def digitsLenGo (base : Nat) : Nat → Nat → Nat
  | 0, _ => 1
  | fuel + 1, n => if n < base then 1 else digitsLenGo base fuel (n / base) + 1

/-- Number of base-`base` digits of `n`. -/
def digitsLen (base n : Nat) : Nat := digitsLenGo base n n

/-- Least `k` (starting from the accumulator) with `q ≤ p * base ^ k`, fuel-driven. -/
def searchScale (base p q : Nat) : Nat → Nat → Nat
  | 0, k => k
  | fuel + 1, k => if q ≤ p * base ^ k then k else searchScale base p q fuel (k + 1)

/-- Floor of the base-`base` logarithm of `p / q`, for positive `p` and `q`. -/
def ilogRat (base p q : Nat) : Int :=
  if q ≤ p then (digitsLen base (p / q) : Int) - 1
  else -(searchScale base p q (digitsLen base q + 1) 1 : Int)

/-- A Microsoft Binary Format float: sign, excess-128 exponent byte
(0 means zero), stored fraction below the implicit leading 1 bit, and the
precision tag (23 fraction bits for Single, 55 for Double).  The value of a
nonzero float is `(-1)^neg * (2^fracBits + frac) * 2^(exp - 129 - fracBits)`. -/
structure MBF where
  neg : Bool
  exp : Nat
  frac : Nat
  isDouble : Bool
deriving DecidableEq

/-- Stored fraction bits: 23 for Single, 55 for Double. -/
def MBF.fracBits (f : MBF) : Nat := if f.isDouble then 55 else 23

/-- Native decimal digit count: 7 for Single, 16 for Double. -/
def MBF.digits (f : MBF) : Nat := if f.isDouble then 16 else 7

/-- Type sigil character. -/
def MBF.sigil (f : MBF) : Char := if f.isDouble then '#' else '!'

/-- Exponent letter used in scientific output. -/
def MBF.expSign (f : MBF) : Char := if f.isDouble then 'D' else 'E'

/-- An MBF float is zero exactly when its exponent byte is zero. -/
def MBF.isZero (f : MBF) : Bool := f.exp == 0

/-- Modelled from the spec: `numbers.Float.ineg` (not under src/) — flip the
sign bit; zero remains zero (spec section 4.2). -/
def MBF.ineg (f : MBF) : MBF := if f.isZero then f else { f with neg := !f.neg }

/-- Modelled from the spec: `numbers.Float.iabs` (not under src/) — clear the
sign bit (spec section 4.2). -/
def MBF.iabs (f : MBF) : MBF := { f with neg := false }

/-- Numerator of the magnitude of a nonzero MBF float over `magDen`. -/
def MBF.magNum (f : MBF) : Nat := (2 ^ f.fracBits + f.frac) * 2 ^ f.exp

/-- Denominator of the magnitude of an MBF float. -/
def MBF.magDen (f : MBF) : Nat := 2 ^ (129 + f.fracBits)

/-- Modelled from the spec: `numbers.Float.to_decimal` (not under src/) —
integer mantissa of `digits` significant decimal digits and a decimal
exponent with value = mantissa * 10 ^ exp10, rounded half-to-even
(spec section 4.1). -/
def MBF.toDecimal (f : MBF) (digits : Nat) : Int × Int :=
  if f.isZero then (0, 0)
  else
    let p := f.magNum
    let q := f.magDen
    let e10 := ilogRat 10 p q - ((digits : Int) - 1)
    let m := ratRoundScale 10 p q e10
    let me : Nat × Int := if m = 10 ^ digits then (10 ^ (digits - 1), e10 + 1) else (m, e10)
    (if f.neg then -(me.1 : Int) else (me.1 : Int), me.2)

/-- Modelled from the spec: `numbers.Float.from_decimal` (not under src/) —
the closest MBF value to mantissa * 10 ^ exp10, rounded half-to-even
(spec section 4.1). -/
def MBF.fromDecimal (dbl : Bool) (m : Int) (e10 : Int) : MBF :=
  if m = 0 then ⟨false, 0, 0, dbl⟩
  else
    let fb : Nat := if dbl then 55 else 23
    let pq : Nat × Nat :=
      if 0 ≤ e10 then (m.natAbs * 10 ^ e10.toNat, 1) else (m.natAbs, 10 ^ (-e10).toNat)
    let n := ilogRat 2 pq.1 pq.2
    let mant := ratRoundScale 2 pq.1 pq.2 (n - (fb : Int))
    let mn : Nat × Int := if mant = 2 ^ (fb + 1) then (2 ^ fb, n + 1) else (mant, n)
    ⟨decide (m < 0), (mn.2 + 129).toNat, mn.1 - 2 ^ fb, dbl⟩

/-- Embeds `float_to_str` from values.py: free-form (listing / `STR$` /
`PRINT`) representation of an MBF float. -/
def float_to_str (n : MBF) (leadingSpace typeSign : Bool) : List Char :=
  if n.isZero then
    (if leadingSpace then [' '] else []) ++ '0' :: (if typeSign then [n.sigil] else [])
  else
    let sign := if n.neg then ['-'] else if leadingSpace then [' '] else []
    let ne := n.toDecimal n.digits
    let ndigits := n.digits
    let digitstr := getDigits ne.1 ndigits true
    let exp10 := ne.2 + (ndigits : Int) - 1
    if (ndigits : Int) - 1 < exp10 ∨ (ndigits : Int) + 1 < (digitstr.length : Int) - exp10 then
      sign ++ sci_format digitstr exp10 n.expSign 1 false
    else
      sign ++ dec_format digitstr exp10 (if typeSign then some n.sigil else none) false

/-! ### Character classification lemmas for the formatting output -/

theorem natDigitsGo_lt_ten (fuel : Nat) : ∀ n d, d ∈ natDigitsGo fuel n → d < 10 := by
  induction fuel with
  | zero =>
    intro n d hd
    simp only [natDigitsGo, List.mem_singleton] at hd
    omega
  | succ f ih =>
    intro n d hd
    simp only [natDigitsGo] at hd
    split at hd
    · simp only [List.mem_singleton] at hd
      omega
    · rcases List.mem_append.1 hd with h | h
      · exact ih _ _ h
      · simp only [List.mem_singleton] at h
        omega

theorem natDigitChars_isDigit {n : Nat} {c : Char} (hc : c ∈ natDigitChars n) :
    c.isDigit = true := by
  rcases List.mem_map.1 hc with ⟨d, hd, rfl⟩
  have h10 : d < 10 := natDigitsGo_lt_ten _ _ _ hd
  interval_cases d <;> decide

theorem rstripZeros_subset (l : List Char) : rstripZeros l ⊆ l := by
  intro c hc
  unfold rstripZeros at hc
  rw [List.mem_reverse] at hc
  exact List.mem_reverse.1 ((List.dropWhile_sublist _).subset hc)

theorem getDigits_isDigit {num : Int} {digits : Nat} {rt : Bool} {c : Char}
    (hc : c ∈ getDigits num digits rt) : c.isDigit = true := by
  unfold getDigits at hc
  have key : ∀ x, x ∈ List.replicate (digits - (natDigitChars num.natAbs).length) '0' ++
      (natDigitChars num.natAbs).take digits → x.isDigit = true := by
    intro x hx
    rcases List.mem_append.1 hx with h | h
    · rw [List.eq_of_mem_replicate h]
      decide
    · exact natDigitChars_isDigit (List.take_subset _ _ h)
  split at hc
  · exact key _ (rstripZeros_subset _ hc)
  · exact key _ hc

theorem dec_format_mem {ds : List Char} {e10 : Int} {ts : Option Char} {fd : Bool} {c : Char}
    (hc : c ∈ dec_format ds e10 ts fd) : c ∈ ds ∨ c = '0' ∨ c = '.' ∨ ts = some c := by
  have hts : ∀ x : Char, x ∈ ts.toList → ts = some x := by
    intro x hx
    cases ts <;> simp_all
  have hA : ∀ k x, x ∈ ds ++ List.replicate k '0' → x ∈ ds ∨ x = '0' ∨ x = '.' ∨ ts = some x := by
    intro k x hx
    rcases List.mem_append.1 hx with h | h
    · exact Or.inl h
    · exact Or.inr (Or.inl (List.eq_of_mem_replicate h))
  have hA' : ∀ k x, x ∈ (if fd = true then (ds ++ List.replicate k '0') ++ ['.']
      else ds ++ List.replicate k '0') → x ∈ ds ∨ x = '0' ∨ x = '.' ∨ ts = some x := by
    intro k x hx
    split at hx
    · rcases List.mem_append.1 hx with h | h
      · exact hA _ _ h
      · simp only [List.mem_singleton] at h
        exact Or.inr (Or.inr (Or.inl h))
    · exact hA _ _ hx
  have hB : ∀ k x, x ∈ List.take k ds ++ '.' :: List.drop k ds →
      x ∈ ds ∨ x = '0' ∨ x = '.' ∨ ts = some x := by
    intro k x hx
    rcases List.mem_append.1 hx with h | h
    · exact Or.inl (List.take_subset _ _ h)
    · rcases List.mem_cons.1 h with h' | h'
      · exact Or.inr (Or.inr (Or.inl h'))
      · exact Or.inl (List.drop_subset _ _ h')
  have hC : ∀ k x, x ∈ (if fd = true then ['0'] else []) ++
      '.' :: (List.replicate k '0' ++ ds) → x ∈ ds ∨ x = '0' ∨ x = '.' ∨ ts = some x := by
    intro k x hx
    rcases List.mem_append.1 hx with h | h
    · split at h
      · simp only [List.mem_singleton] at h
        exact Or.inr (Or.inl h)
      · simp at h
    · rcases List.mem_cons.1 h with h' | h'
      · exact Or.inr (Or.inr (Or.inl h'))
      · rcases List.mem_append.1 h' with h3 | h3
        · exact Or.inr (Or.inl (List.eq_of_mem_replicate h3))
        · exact Or.inl h3
  simp only [dec_format] at hc
  split at hc
  · split at hc
    · rcases List.mem_append.1 hc with h | h
      · exact hA' _ _ h
      · exact Or.inr (Or.inr (Or.inr (hts _ h)))
    · exact hA' _ _ hc
  · split at hc
    · split at hc
      · rcases List.mem_append.1 hc with h | h
        · exact hB _ _ h
        · exact Or.inr (Or.inr (Or.inr (hts _ h)))
      · exact hB _ _ hc
    · split at hc
      · rcases List.mem_append.1 hc with h | h
        · exact hC _ _ h
        · exact Or.inr (Or.inr (Or.inr (hts _ h)))
      · exact hC _ _ hc

theorem sci_format_expSign_mem (ds : List Char) (e10 : Int) (es : Char)
    (dd : Nat) (fd : Bool) : es ∈ sci_format ds e10 es dd fd := by
  simp [sci_format, List.mem_append]

/-- C1: for every nonzero Single or Double value formatted on the
listing / `STR$` / `PRINT` path, with `(num, exp10)` the value's decimal form
at the type's native digit count, `digitstr` the significant digits with
trailing zeros stripped, and `exp10' = exp10 + digits - 1`, the formatter
chooses scientific form (the output carries the exponent letter) if and only
if `exp10' > digits - 1` or `len(digitstr) - exp10' > digits + 1`; otherwise
it chooses decimal form. -/
theorem c1_sci_versus_dec (f : MBF) (ls ts : Bool) (h : f.isZero = false) :
    (f.expSign ∈ float_to_str f ls ts ↔
      ((f.digits : Int) - 1 < (f.toDecimal f.digits).2 + (f.digits : Int) - 1 ∨
        (f.digits : Int) + 1 <
          ((getDigits (f.toDecimal f.digits).1 f.digits true).length : Int) -
            ((f.toDecimal f.digits).2 + (f.digits : Int) - 1))) := by
  have hes : f.expSign = 'D' ∨ f.expSign = 'E' := by
    unfold MBF.expSign
    split
    · exact Or.inl rfl
    · exact Or.inr rfl
  have hsig : f.sigil = '#' ∨ f.sigil = '!' := by
    unfold MBF.sigil
    split
    · exact Or.inl rfl
    · exact Or.inr rfl
  unfold float_to_str
  simp only [h, Bool.false_eq_true, if_false]
  split
  · rename_i hcond
    refine iff_of_true (List.mem_append.2 (Or.inr (sci_format_expSign_mem _ _ _ _ _))) ?_
    exact hcond
  · rename_i hcond
    refine iff_of_false ?_ hcond
    intro hm
    rcases List.mem_append.1 hm with hs | hd
    · rcases hes with he | he <;>
        (rw [he] at hs; split at hs) <;> simp_all
    · rcases dec_format_mem hd with h1 | h1 | h1 | h1
      · have := getDigits_isDigit h1
        rcases hes with he | he <;> rw [he] at this <;> simp at this
      · rcases hes with he | he <;> rw [he] at h1 <;> simp at h1
      · rcases hes with he | he <;> rw [he] at h1 <;> simp at h1
      · split at h1
        · rw [Option.some_inj] at h1
          rcases hsig with hg | hg <;> rcases hes with he | he <;>
            rw [hg, he] at h1 <;> simp at h1
        · simp at h1

/-! ### Values: descriptors and the facade operations -/

/-- Error kinds raised by the value engine (`error.py` codes). -/
inductive Err
  | typeMismatch
  | overflow
  | ifc
  | stx
  | dbz
deriving DecidableEq

/-- A BASIC value descriptor: 16-bit Integer (stored bit pattern), MBF float,
or String (modelled by its byte content; the string space is collapsed into
the descriptor). -/
inductive Value
  | int (pat : Nat)
  | flt (f : MBF)
  | str (bs : List Nat)
deriving DecidableEq

/-- Signed reading of a stored 16-bit two's-complement pattern. -/
def intSigned (pat : Nat) : Int := if pat < 32768 then (pat : Int) else (pat : Int) - 65536

/-- Embeds `Values.sigil`. -/
def Value.sigil : Value → Char
  | .int _ => '%'
  | .flt f => f.sigil
  | .str _ => '$'

/-- Well-formed descriptors: Integer patterns fit 16 bits, MBF fields fit
their byte layout with a canonical zero, strings are at most 255 bytes. -/
def Value.wf : Value → Bool
  | .int pat => decide (pat < 65536)
  | .flt f => decide (f.exp < 256) && decide (f.frac < 2 ^ f.fracBits) &&
      (f.exp != 0 || (!f.neg && f.frac == 0))
  | .str bs => decide (bs.length ≤ 255) && bs.all (fun b => decide (b < 256))

/-- Modelled from the spec: `numbers.Float.from_integer` (not under src/) —
exact MBF encoding of a 16-bit integer (spec section 4.5, widening). -/
def MBF.fromInt (dbl : Bool) (v : Int) : MBF :=
  if v = 0 then ⟨false, 0, 0, dbl⟩
  else
    let fb : Nat := if dbl then 55 else 23
    let m := v.natAbs
    let n := digitsLen 2 m - 1
    ⟨decide (v < 0), n + 129, m * 2 ^ (fb - n) - 2 ^ fb, dbl⟩

/-- Modelled from the spec: Double-to-Single narrowing of `to_single`
(not under src/) — round the fraction to 23 bits, half to even. -/
def MBF.toSingle (f : MBF) : MBF :=
  if f.isDouble = false then f
  else if f.isZero then ⟨false, 0, 0, false⟩
  else
    let m := roundHalfEvenDiv (2 ^ 55 + f.frac) (2 ^ 32)
    if m = 2 ^ 24 then ⟨f.neg, f.exp + 1, 0, false⟩ else ⟨f.neg, f.exp, m - 2 ^ 23, false⟩

/-- Modelled from the spec: Single-to-Double widening (not under src/) —
same value, fraction shifted up 32 bits. -/
def MBF.toDouble (f : MBF) : MBF :=
  if f.isDouble then f
  else if f.isZero then ⟨false, 0, 0, true⟩
  else ⟨f.neg, f.exp, f.frac * 2 ^ 32, true⟩

/-- Embeds `Values.to_single`. -/
def Values.to_single (v : Value) : Except Err Value :=
  match v with
  | .str _ => .error .typeMismatch
  | .int pat => .ok (.flt (MBF.fromInt false (intSigned pat)))
  | .flt f => .ok (.flt f.toSingle)

/-- Embeds `Values.to_double`. -/
def Values.to_double (v : Value) : Except Err Value :=
  match v with
  | .str _ => .error .typeMismatch
  | .int pat => .ok (.flt (MBF.fromInt true (intSigned pat)))
  | .flt f => .ok (.flt f.toDouble)

/-- Modelled from the spec: rounding an MBF value to the nearest integer,
ties to even (`iround`, spec section 4.2). -/
def MBF.iroundInt (f : MBF) : Int :=
  let m := ratRoundScale 2 (2 ^ f.fracBits + f.frac) 1 ((129 : Int) + (f.fracBits : Int) - (f.exp : Int))
  if f.neg then -(m : Int) else (m : Int)

/-- Embeds `Values.to_integer` composed with the modelled `iround`; returns
the stored 16-bit pattern of the resulting Integer.  Out of signed range
raises Overflow (spec section 4.5). -/
def Values.to_integer (v : Value) : Except Err Nat :=
  match v with
  | .str _ => .error .typeMismatch
  | .int pat => .ok pat
  | .flt f =>
    let r := f.iroundInt
    if -32768 ≤ r ∧ r ≤ 32767 then .ok (r.emod 65536).toNat else .error .overflow

/-- Embeds `Values.from_bool`: all bits set for true. -/
def Values.from_bool (b : Bool) : Value := if b then .int 65535 else .int 0

/-- Exact rational value of an MBF float. -/
def MBF.toQ (f : MBF) : ℚ :=
  if f.isZero then 0
  else (if f.neg then -1 else 1) * (((2 ^ f.fracBits + f.frac : Nat) : ℚ) * 2 ^ f.exp) /
    2 ^ (129 + f.fracBits)

/-- Modelled from the spec: same-precision numeric ordering `gt`
(spec section 4.2), by value. -/
def numGt (a b : Value) : Bool :=
  match a, b with
  | .int p, .int q => decide (intSigned q < intSigned p)
  | .flt f, .flt g => decide (g.toQ < f.toQ)
  | _, _ => false

/-- Sequence two fallible results into a pair. -/
def exPair {α β : Type} (a : Except Err α) (b : Except Err β) : Except Err (α × β) :=
  match a with
  | .error e => .error e
  | .ok x =>
    match b with
    | .error e => .error e
    | .ok y => .ok (x, y)

/-- Embeds `Values.to_most_precise`. -/
def Values.to_most_precise (l r : Value) : Except Err (Value × Value) :=
  if l.sigil = '#' ∨ r.sigil = '#' then exPair (Values.to_double l) (Values.to_double r)
  else if l.sigil = '!' ∨ r.sigil = '!' then exPair (Values.to_single l) (Values.to_single r)
  else if l.sigil = '%' ∨ r.sigil = '%' then
    match exPair (Values.to_integer l) (Values.to_integer r) with
    | .error e => .error e
    | .ok (a, b) => .ok (.int a, .int b)
  else .error .typeMismatch

/-- Embeds `Values._bool_eq`: string content equality, or bitwise equality
after promotion to the most precise common type. -/
def Values.bool_eq (l r : Value) : Except Err Bool :=
  match l with
  | .str bs =>
    match r with
    | .str cs => .ok (bs == cs)
    | _ => .error .typeMismatch
  | _ =>
    match Values.to_most_precise l r with
    | .error e => .error e
    | .ok p => .ok (p.1 == p.2)

/-- Embeds the string loop of `Values.bool_gt`: byte-wise comparison over the
common prefix; when equal so far, the longer string is greater. -/
def byteGt : List Nat → List Nat → Bool
  | _ :: _, [] => true
  | [], _ => false
  | a :: l, b :: r => if b < a then true else if a < b then false else byteGt l r

/-- Embeds `Values.bool_gt`. -/
def Values.bool_gt (l r : Value) : Except Err Bool :=
  match l with
  | .str bs =>
    match r with
    | .str cs => .ok (byteGt bs cs)
    | _ => .error .typeMismatch
  | _ =>
    match Values.to_most_precise l r with
    | .error e => .error e
    | .ok p => .ok (numGt p.1 p.2)

/-- Embeds `Values.gt`. -/
def Values.gt (l r : Value) : Except Err Value :=
  match Values.bool_gt l r with
  | .error e => .error e
  | .ok b => .ok (Values.from_bool b)

/-- Embeds `Values.lt`. -/
def Values.lt (l r : Value) : Except Err Value :=
  match Values.bool_gt r l with
  | .error e => .error e
  | .ok b => .ok (Values.from_bool b)

/-- Embeds `Values.negate`: no-op on strings; `to_float(inp).clone().ineg()`
promotes an Integer to Single and flips the sign of the float. -/
def Values.negate (v : Value) : Value :=
  match v with
  | .str bs => .str bs
  | .int pat => .flt ((MBF.fromInt false (intSigned pat)).ineg)
  | .flt f => .flt f.ineg

/-- Embeds `Integer.from_int` with unsigned=True: range check 0..65535 then
store the bits (range check modelled from spec section 4.5). -/
def from_int_unsigned (i : Int) : Except Err Value :=
  if 0 ≤ i ∧ i ≤ 65535 then .ok (.int i.toNat) else .error .overflow

/-- Embeds `Integer.from_int` (signed): range check then store two's
complement (range check modelled from spec section 4.5). -/
def from_int_signed (i : Int) : Except Err Value :=
  if -32768 ≤ i ∧ i ≤ 32767 then .ok (.int (i.emod 65536).toNat) else .error .overflow

/-- Embeds `Values.bitwise_eqv`: `0xffff - (x XOR y)` over the unsigned
16-bit views of the operands converted to Integer. -/
def Values.bitwise_eqv (l r : Value) : Except Err Value :=
  match Values.to_integer l with
  | .error e => .error e
  | .ok a =>
    match Values.to_integer r with
    | .error e => .error e
    | .ok b => from_int_unsigned (65535 - ((a ^^^ b : Nat) : Int))

/-- Little-endian decode of a 2-byte Integer payload. -/
def intFromBytes (b : List Nat) : Nat := b.getD 0 0 + 256 * b.getD 1 0

/-- Decode of a 4-byte MBF Single payload: mantissa low, mid, sign | high,
exponent (spec section 6 layout). -/
def singleFromBytes (b : List Nat) : MBF :=
  ⟨decide (128 ≤ b.getD 2 0), b.getD 3 0,
    b.getD 0 0 + 256 * b.getD 1 0 + 65536 * (b.getD 2 0 % 128), false⟩

/-- Decode of an 8-byte MBF Double payload: 7 mantissa bytes then exponent
(spec section 6 layout). -/
def doubleFromBytes (b : List Nat) : MBF :=
  ⟨decide (128 ≤ b.getD 6 0), b.getD 7 0,
    b.getD 0 0 + 2 ^ 8 * b.getD 1 0 + 2 ^ 16 * b.getD 2 0 + 2 ^ 24 * b.getD 3 0 +
      2 ^ 32 * b.getD 4 0 + 2 ^ 40 * b.getD 5 0 + 2 ^ 48 * (b.getD 6 0 % 128), true⟩

/-- Embeds `Values.cvi`: `CVI` of a string value. -/
def Values.cvi (s : List Nat) : Except Err Value :=
  if s.length < 2 then .error .ifc else .ok (.int (intFromBytes (s.take 2)))

/-- Embeds `Values.cvs`: `CVS` of a string value. -/
def Values.cvs (s : List Nat) : Except Err Value :=
  if s.length < 4 then .error .ifc else .ok (.flt (singleFromBytes (s.take 4)))

/-- Embeds `Values.cvd`: `CVD` of a string value. -/
def Values.cvd (s : List Nat) : Except Err Value :=
  if s.length < 8 then .error .ifc else .ok (.flt (doubleFromBytes (s.take 8)))

/-- Embeds Python `str.find`: least index at which `needle` occurs inside
`hay`, or -1 when absent. -/
def strFind (hay needle : List Nat) : Int :=
  match (List.range (hay.length + 1)).find? (fun i => needle.isPrefixOf (hay.drop i)) with
  | some i => (i : Int)
  | none => -1

/-- Embeds `Values.instr`. -/
def Values.instr (big small : List Nat) (start : Int) : Except Err Value :=
  if big = [] ∨ (big.length : Int) < start then .ok (.int 0)
  else
    let found := strFind (big.drop (start - 1).toNat) small
    if found = -1 then .ok (.int 0)
    else from_int_signed (start + found)

/-! ### PRINT USING formatting -/

/-- Embeds `_format_float_scientific` from values.py, including the legacy
zero quirk (`E+00` for Single, `0D+00` for Double when no dot is forced). -/
def format_float_scientific (expr : MBF) (digitsBefore decimals : Nat)
    (forceDot : Bool) : List Char :=
  let workDigits := min expr.digits (digitsBefore + decimals)
  if expr.isZero && !forceDot then
    if expr.expSign = 'E' then "E+00".toList else "0D+00".toList
  else
    let de : List Char × Int :=
      if expr.isZero then (List.replicate (digitsBefore + decimals) '0', 0)
      else
        let ne := expr.toDecimal (if workDigits = 0 then 1 else workDigits)
        let ds := getDigits ne.1 workDigits true
        (if ds.length < digitsBefore + decimals then
            ds ++ List.replicate (digitsBefore + decimals - ds.length) '0'
          else ds, ne.2)
    let exp10 := if workDigits = 0 then de.2 + 1 else de.2
    let exp10 := exp10 + (digitsBefore : Int) + (decimals : Int) - 1
    sci_format de.1 exp10 expr.expSign digitsBefore forceDot

/-- Embeds `_format_float_fixed` from values.py. -/
def format_float_fixed (expr : MBF) (decimals : Nat) (forceDot : Bool) : List Char :=
  let ne := expr.toDecimal expr.digits
  let ne :=
    if (decimals : Int) < -ne.2 then
      expr.toDecimal (expr.digits - ((-ne.2).toNat - decimals))
    else ne
  let digitstr := natDigitChars ne.1.natAbs
  let nbefore : Int := (digitstr.length : Int) + ne.2
  let digitstr := digitstr ++ List.replicate ((decimals : Int) + ne.2).toNat '0'
  dec_format digitstr (nbefore - 1) none forceDot

/-- Embeds `format_number` from values.py: the `PRINT USING` field formatter. -/
def format_number (value : MBF) (tokens : List Char) (digitsBefore decimals : Nat) :
    Except Err (List Char) :=
  if 24 < digitsBefore + decimals then .error .ifc
  else
    let hasDollar := tokens.contains '$'
    let forceDot := tokens.contains '.'
    let neg := value.neg
    let t3 : List Char × List Char × Nat :=
      if tokens.head? = some '+' then ((if neg then ['-'] else ['+']), [], digitsBefore)
      else if tokens.getLast? = some '+' then ([], [(if neg then '-' else '+')], digitsBefore)
      else if tokens.getLast? = some '-' then ([], [(if neg then '-' else ' ')], digitsBefore)
      else ((if neg then ['-'] else []), [],
        if hasDollar then digitsBefore else digitsBefore - 1)
    let valstr := t3.1
    let postSign := t3.2.1
    let digitsBefore := t3.2.2
    let value := value.iabs
    let valstr := valstr ++ (if hasDollar then ['$'] else [])
    let valstr := valstr ++
      (if tokens.contains '^' then
        format_float_scientific value digitsBefore decimals forceDot
      else format_float_fixed value decimals forceDot)
    let valstr := valstr ++ postSign
    .ok (if tokens.length < valstr.length then '%' :: valstr
      else List.replicate (tokens.length - valstr.length)
        (if tokens.contains '*' then '*' else ' ') ++ valstr)

/-! ### Concrete values used by the scenarios -/

/-- The MBF Single with value 1. -/
def oneSingle : MBF := ⟨false, 129, 0, false⟩

/-- The MBF Single zero. -/
def singleZero : MBF := ⟨false, 0, 0, false⟩

/-- The MBF Double zero. -/
def doubleZero : MBF := ⟨false, 0, 0, true⟩

/-- The MBF Single holding the literal 12345.678 (decimal form 12345678e-3). -/
def single12345678 : MBF := MBF.fromDecimal false 12345678 (-3)

/-! ### Claim theorems -/

/-- C6: `format_number` fails with Illegal Function Call whenever
`digits_before + decimals > 24`, before producing any output. -/
theorem c6_format_number_ifc (v : MBF) (tokens : List Char) (db dc : Nat)
    (h : 24 < db + dc) : format_number v tokens db dc = .error .ifc := by
  unfold format_number
  rw [if_pos h]

/-- Witness for C6 at `digits_before = 25`, `decimals = 0`. -/
theorem c6_witness :
    24 < 25 + 0 ∧ format_number singleZero ['#'] 25 0 = .error .ifc :=
  ⟨by decide, c6_format_number_ifc singleZero ['#'] 25 0 (by decide)⟩

/-- C7: a zero value under a scientific `PRINT USING` token with no forced
decimal point yields the digit part `E+00` for Single and `0D+00` for
Double; in particular `PRINT USING "#^^^^"` of Single 0 gives `" E+00"`. -/
theorem c7_zero_scientific :
    (∀ db dc : Nat, format_float_scientific singleZero db dc false = "E+00".toList) ∧
    (∀ db dc : Nat, format_float_scientific doubleZero db dc false = "0D+00".toList) ∧
    format_number singleZero "#^^^^".toList 1 0 = .ok " E+00".toList := by
  refine ⟨fun db dc => rfl, fun db dc => rfl, rfl⟩

/-- Witness for C1 at the Single value 1 (decimal form chosen). -/
theorem c1_witness :
    oneSingle.isZero = false ∧
      (oneSingle.expSign ∈ float_to_str oneSingle false false ↔
        ((oneSingle.digits : Int) - 1 <
            (oneSingle.toDecimal oneSingle.digits).2 + (oneSingle.digits : Int) - 1 ∨
          (oneSingle.digits : Int) + 1 <
            ((getDigits (oneSingle.toDecimal oneSingle.digits).1 oneSingle.digits true).length : Int) -
              ((oneSingle.toDecimal oneSingle.digits).2 + (oneSingle.digits : Int) - 1))) :=
  ⟨rfl, c1_sci_versus_dec oneSingle false false rfl⟩

/-- In `_decimal_notation` with type sign `#`, the sigil is always appended. -/
theorem dec_format_hash_mem (ds : List Char) (e10 : Int) (fd : Bool) :
    '#' ∈ dec_format ds e10 (some '#') fd := by
  simp only [dec_format]
  split
  · split
    · exact List.mem_append.2 (Or.inr (by simp))
    · rename_i h2
      exact absurd (Or.inr trivial) h2
  · split
    · split
      · exact List.mem_append.2 (Or.inr (by simp))
      · rename_i h2
        exact absurd trivial h2
    · split
      · exact List.mem_append.2 (Or.inr (by simp))
      · rename_i h2
        exact absurd trivial h2

/-- In `_decimal_notation` with type sign `!` over a digit string, the sigil
appears in the output exactly when the whole digit string sits left of the
radix point and no dot is forced. -/
theorem dec_format_bang_mem {ds : List Char} {e10 : Int} {fd : Bool}
    (hds : ∀ c ∈ ds, c.isDigit = true) :
    ('!' ∈ dec_format ds e10 (some '!') fd) ↔
      ((ds.length : Int) ≤ e10 + 1 ∧ fd = false) := by
  have hnds : '!' ∉ ds := by
    intro h
    have := hds _ h
    simp at this
  have hnA : ∀ k, '!' ∉ ds ++ List.replicate k '0' := by
    intro k h
    rcases List.mem_append.1 h with h' | h'
    · exact hnds h'
    · have := List.eq_of_mem_replicate h'
      simp at this
  simp only [dec_format]
  split
  · rename_i h1
    split
    · rename_i h2
      have hfd : fd = false := by
        rcases h2 with h | h
        · exact h
        · simp at h
      rw [hfd]
      refine iff_of_true ?_ ⟨by exact_mod_cast h1, rfl⟩
      simp
    · rename_i h2
      have hfd : fd = true := by
        rcases Bool.eq_false_or_eq_true fd with h | h
        · exact h
        · exact absurd (Or.inl h) h2
      rw [hfd]
      refine iff_of_false ?_ (by simp [hfd])
      intro hm
      rcases List.mem_append.1 hm with h | h
      · exact hnA _ h
      · simp at h
  · rename_i h1
    have hright : ¬ ((ds.length : Int) ≤ e10 + 1 ∧ fd = false) := by
      intro hc
      exact h1 hc.1
    split
    · refine iff_of_false ?_ hright
      rw [if_neg (by simp)]
      intro hm
      rcases List.mem_append.1 hm with h | h
      · exact hnds (List.take_subset _ _ h)
      · rcases List.mem_cons.1 h with h' | h'
        · simp at h'
        · exact hnds (List.drop_subset _ _ h')
    · refine iff_of_false ?_ hright
      rw [if_neg (by simp)]
      intro hm
      rcases List.mem_append.1 hm with h | h
      · split at h
        · simp at h
        · simp at h
      · rcases List.mem_cons.1 h with h' | h'
        · simp at h'
        · rcases List.mem_append.1 h' with h3 | h3
          · have := List.eq_of_mem_replicate h3
            simp at this
          · exact hnds h3

/-- C2 counterexample: listing-mode formatting of the Single 12345.678 yields
`12345.68` with no trailing sigil, not `12345.68!`. -/
theorem c2_counterexample :
    float_to_str single12345678 false true = "12345.68".toList ∧
    float_to_str single12345678 false true ≠ "12345.68!".toList := by
  constructor
  · decide
  · decide

/-- C2 (amended): listing-mode formatting of Single 12345.678 gives
`12345.68` (7 significant digits, no sigil); in decimal form the sigil `#`
is always appended for Double, while `!` is appended exactly when the
number is displayed without any fractional digits and no dot is forced. -/
theorem c2_sigil_rules :
    float_to_str single12345678 false true = "12345.68".toList ∧
    (∀ (ds : List Char) (e10 : Int) (fd : Bool),
      (∀ c ∈ ds, c.isDigit = true) →
      ('#' ∈ dec_format ds e10 (some '#') fd) ∧
      (('!' ∈ dec_format ds e10 (some '!') fd) ↔
        ((ds.length : Int) ≤ e10 + 1 ∧ fd = false))) :=
  ⟨by decide, fun ds e10 fd hds => ⟨dec_format_hash_mem ds e10 fd, dec_format_bang_mem hds⟩⟩

/-- Witness for C2 at the one-digit string `1`. -/
theorem c2_witness :
    ('#' ∈ dec_format ['1'] 0 (some '#') false) ∧
    (('!' ∈ dec_format ['1'] 0 (some '!') false) ↔
      (((['1'] : List Char).length : Int) ≤ 0 + 1 ∧ false = false)) :=
  c2_sigil_rules.2 ['1'] 0 false (by decide)

/-- Sign flipping is involutive on MBF floats. -/
theorem MBF.ineg_ineg (f : MBF) : f.ineg.ineg = f := by
  cases f with
  | mk n e fr d =>
    unfold MBF.ineg MBF.isZero
    by_cases h : e = 0
    · simp [h]
    · simp [h, Bool.not_not]

/-- Negation does not change precision. -/
theorem MBF.ineg_isDouble (f : MBF) : f.ineg.isDouble = f.isDouble := by
  unfold MBF.ineg
  split <;> rfl

/-- Integer encoding produces the requested precision. -/
theorem MBF.fromInt_isDouble (d : Bool) (v : Int) : (MBF.fromInt d v).isDouble = d := by
  unfold MBF.fromInt
  split <;> rfl

/-- Narrowing is the identity on Singles. -/
theorem MBF.toSingle_of_single {f : MBF} (h : f.isDouble = false) : f.toSingle = f := by
  unfold MBF.toSingle
  rw [if_pos h]

/-- Widening is the identity on Doubles. -/
theorem MBF.toDouble_of_double {f : MBF} (h : f.isDouble = true) : f.toDouble = f := by
  unfold MBF.toDouble
  rw [if_pos h]

/-- C3 (amended): for every numeric value, `negate(negate(x))` is equal in
value to `x` under the engine's equality (promotion then bitwise
comparison); an Integer argument comes back as the Single of the same
value, including at -32768. -/
theorem c3_double_negation (x : Value) (h : x.sigil ≠ '$') :
    Values.bool_eq (Values.negate (Values.negate x)) x = .ok true := by
  match x with
  | .str bs => exact absurd rfl h
  | .int pat =>
    show Values.bool_eq (.flt ((MBF.fromInt false (intSigned pat)).ineg.ineg)) (.int pat) = .ok true
    rw [MBF.ineg_ineg]
    have hsig : (MBF.fromInt false (intSigned pat)).sigil = '!' := by
      simp [MBF.sigil, MBF.fromInt_isDouble]
    simp [Values.bool_eq, Values.to_most_precise, Value.sigil, hsig, Values.to_single,
      MBF.toSingle_of_single (MBF.fromInt_isDouble false (intSigned pat)), exPair]
  | .flt f =>
    show Values.bool_eq (.flt f.ineg.ineg) (.flt f) = .ok true
    rw [MBF.ineg_ineg]
    rcases Bool.eq_false_or_eq_true f.isDouble with hd | hd
    · have hsig : f.sigil = '#' := by
        simp [MBF.sigil, hd]
      simp [Values.bool_eq, Values.to_most_precise, Value.sigil, hsig, Values.to_double,
        MBF.toDouble_of_double hd, exPair]
    · have hsig : f.sigil = '!' := by
        simp [MBF.sigil, hd]
      simp [Values.bool_eq, Values.to_most_precise, Value.sigil, hsig, Values.to_single,
        MBF.toSingle_of_single hd, exPair]

/-- C3 counterexample: at Integer -32768 (stored pattern 32768) the inner
negation gives the Single 32768, but the double negation returns the Single
-32768 — equal in value to the argument — and not the Single 32768 the claim
states. -/
theorem c3_counterexample :
    Values.negate (.int 32768) = .flt ⟨false, 144, 0, false⟩ ∧
    Values.negate (Values.negate (.int 32768)) = .flt ⟨true, 144, 0, false⟩ ∧
    (⟨true, 144, 0, false⟩ : MBF).toQ = -32768 ∧
    (⟨false, 144, 0, false⟩ : MBF).toQ = 32768 ∧
    Values.negate (Values.negate (.int 32768)) ≠ .flt ⟨false, 144, 0, false⟩ := by
  refine ⟨by decide, by decide, ?_, ?_, by decide⟩
  · norm_num [MBF.toQ, MBF.isZero, MBF.fracBits]
  · norm_num [MBF.toQ, MBF.isZero, MBF.fracBits]

/-- Witness for C3 at the Integer 5. -/
theorem c3_witness :
    Value.sigil (.int 5) ≠ '$' ∧
      Values.bool_eq (Values.negate (Values.negate (.int 5))) (.int 5) = .ok true :=
  ⟨by decide, c3_double_negation (.int 5) (by decide)⟩

/-- Subtraction from an all-ones 16-bit mask is bitwise complement. -/
theorem sub_eq_xor_sixteen {z : Nat} (hz : z < 65536) : 65535 - z = 65535 ^^^ z := by
  apply Nat.eq_of_testBit_eq
  intro i
  have h16 : z < 2 ^ 16 := hz
  have h1 : 65535 - z = 2 ^ 16 - (z + 1) := by omega
  have h2 : (65535 : Nat) = 2 ^ 16 - 1 := by norm_num
  rw [h1, Nat.testBit_two_pow_sub_succ h16, h2, Nat.testBit_xor,
    Nat.testBit_two_pow_sub_one]
  by_cases hi : i < 16
  · simp [hi]
  · have hzi : z.testBit i = false :=
      Nat.testBit_lt_two_pow (lt_of_lt_of_le h16 (Nat.pow_le_pow_right (by norm_num) (by omega)))
    simp [hi, hzi]

/-- A successful `to_integer` of a well-formed value fits in 16 bits. -/
theorem to_integer_lt_two_pow {x : Value} {a : Nat} (hx : x.wf = true)
    (h : Values.to_integer x = .ok a) : a < 65536 := by
  match x with
  | .str _ => simp [Values.to_integer] at h
  | .int p =>
    simp only [Values.to_integer, Except.ok.injEq] at h
    subst h
    simp only [Value.wf, decide_eq_true_eq] at hx
    exact hx
  | .flt f =>
    simp only [Values.to_integer] at h
    split at h
    · simp only [Except.ok.injEq] at h
      subst h
      have h1 : (0 : Int) ≤ f.iroundInt.emod 65536 := Int.emod_nonneg _ (by norm_num)
      have h2 : f.iroundInt.emod 65536 < 65536 := Int.emod_lt_of_pos _ (by norm_num)
      omega
    · simp at h

/-- C4: `bitwise_eqv` returns the Integer whose unsigned 16-bit value is
`0xFFFF XOR (u(x) XOR u(y))`, with `u` the unsigned view of the operand
converted to Integer. -/
theorem c4_bitwise_eqv (x y : Value) (hx : x.wf = true) (hy : y.wf = true)
    (a b : Nat) (ha : Values.to_integer x = .ok a) (hb : Values.to_integer y = .ok b) :
    Values.bitwise_eqv x y = .ok (.int (65535 ^^^ (a ^^^ b))) := by
  have halt : a < 65536 := to_integer_lt_two_pow hx ha
  have hblt : b < 65536 := to_integer_lt_two_pow hy hb
  have hxor : a ^^^ b < 65536 := by
    have : a ^^^ b < 2 ^ 16 := Nat.xor_lt_two_pow (n := 16) halt hblt
    omega
  unfold Values.bitwise_eqv
  rw [ha, hb]
  show from_int_unsigned (65535 - ((a ^^^ b : Nat) : Int)) =
    .ok (.int (65535 ^^^ (a ^^^ b)))
  unfold from_int_unsigned
  rw [if_pos (by constructor <;> omega)]
  congr 1
  have htn : ((65535 : Int) - ((a ^^^ b : Nat) : Int)).toNat = 65535 - (a ^^^ b) := by
    omega
  rw [htn, sub_eq_xor_sixteen hxor]

/-- Witness for C4 at the Integers 4660 and 22136. -/
theorem c4_witness :
    Values.bitwise_eqv (.int 4660) (.int 22136) = .ok (.int (65535 ^^^ (4660 ^^^ 22136))) :=
  c4_bitwise_eqv (.int 4660) (.int 22136) (by decide) (by decide) 4660 22136 rfl rfl

/-- The byte-wise greater-than loop decides the strict lexicographic order
(with the shorter string smaller on equal prefixes). -/
theorem byteGt_iff_lex : ∀ l r : List Nat, byteGt l r = true ↔ List.Lex (· < ·) r l := by
  intro l
  induction l with
  | nil =>
    intro r
    cases r with
    | nil =>
      refine iff_of_false (by simp [byteGt]) ?_
      exact List.Lex.not_nil_right _ _
    | cons b r' =>
      refine iff_of_false (by simp [byteGt]) ?_
      exact List.Lex.not_nil_right _ _
  | cons a l' ih =>
    intro r
    cases r with
    | nil => exact iff_of_true rfl List.Lex.nil
    | cons b r' =>
      simp only [byteGt]
      split
      · rename_i hba
        exact iff_of_true rfl (List.Lex.rel hba)
      · rename_i hba
        split
        · rename_i hab
          refine iff_of_false (by simp) ?_
          intro hlex
          cases hlex with
          | rel h' => exact hba h'
          | cons h' => exact absurd hab (lt_irrefl a)
        · rename_i hab
          have heq : a = b := by omega
          subst heq
          rw [List.Lex.cons_iff]
          exact ih r'

/-- C5: string comparison is lexicographic over bytes with the shorter
string smaller on an equal prefix; the comparison operators return
Integer(-1) (pattern 0xFFFF) for true and Integer(0) for false, and
`"AB" < "ABC"` holds. -/
theorem c5_string_compare (l r : List Nat) :
    (Values.lt (.str l) (.str r) = .ok (.int 65535) ↔ List.Lex (· < ·) l r) ∧
    (Values.lt (.str l) (.str r) = .ok (.int 0) ↔ ¬ List.Lex (· < ·) l r) ∧
    (Values.gt (.str l) (.str r) = .ok (.int 65535) ↔ List.Lex (· < ·) r l) ∧
    Values.lt (.str [65, 66]) (.str [65, 66, 67]) = .ok (.int 65535) ∧
    intSigned 65535 = -1 ∧ intSigned 0 = 0 := by
  have hlt : Values.lt (.str l) (.str r) = .ok (Values.from_bool (byteGt r l)) := rfl
  have hgt : Values.gt (.str l) (.str r) = .ok (Values.from_bool (byteGt l r)) := rfl
  refine ⟨?_, ?_, ?_, rfl, by decide, by decide⟩
  · rw [hlt]
    rcases hb : byteGt r l with _ | _
    · refine iff_of_false (by simp [Values.from_bool]) ?_
      rw [← byteGt_iff_lex r l, hb]
      simp
    · refine iff_of_true (by simp [Values.from_bool]) ?_
      rw [← byteGt_iff_lex r l]
      exact hb
  · rw [hlt]
    rcases hb : byteGt r l with _ | _
    · refine iff_of_true (by simp [Values.from_bool]) ?_
      rw [← byteGt_iff_lex r l, hb]
      simp
    · refine iff_of_false (by simp [Values.from_bool]) ?_
      rw [← byteGt_iff_lex r l]
      simp [hb]
  · rw [hgt]
    rcases hb : byteGt l r with _ | _
    · refine iff_of_false (by simp [Values.from_bool]) ?_
      rw [← byteGt_iff_lex l r, hb]
      simp
    · refine iff_of_true (by simp [Values.from_bool]) ?_
      rw [← byteGt_iff_lex l r]
      exact hb

/-- C8: `CVI`/`CVS`/`CVD` raise a runtime error exactly when the argument is
shorter than 2/4/8 bytes, and otherwise decode the Integer, Single or Double
from the leading bytes. -/
theorem c8_cv_length_rules (s : List Nat) :
    ((∃ e, Values.cvi s = .error e) ↔ s.length < 2) ∧
    ((∃ e, Values.cvs s = .error e) ↔ s.length < 4) ∧
    ((∃ e, Values.cvd s = .error e) ↔ s.length < 8) ∧
    (2 ≤ s.length → Values.cvi s = .ok (.int (intFromBytes (s.take 2)))) ∧
    (4 ≤ s.length → Values.cvs s = .ok (.flt (singleFromBytes (s.take 4)))) ∧
    (8 ≤ s.length → Values.cvd s = .ok (.flt (doubleFromBytes (s.take 8)))) := by
  unfold Values.cvi Values.cvs Values.cvd
  refine ⟨?_, ?_, ?_, ?_, ?_, ?_⟩
  · split
    · rename_i h
      exact iff_of_true ⟨.ifc, rfl⟩ h
    · rename_i h
      refine iff_of_false ?_ h
      rintro ⟨e, he⟩
      simp at he
  · split
    · rename_i h
      exact iff_of_true ⟨.ifc, rfl⟩ h
    · rename_i h
      refine iff_of_false ?_ h
      rintro ⟨e, he⟩
      simp at he
  · split
    · rename_i h
      exact iff_of_true ⟨.ifc, rfl⟩ h
    · rename_i h
      refine iff_of_false ?_ h
      rintro ⟨e, he⟩
      simp at he
  · intro h
    rw [if_neg (by omega)]
  · intro h
    rw [if_neg (by omega)]
  · intro h
    rw [if_neg (by omega)]

/-- Witness for C8 at an 8-byte input. -/
theorem c8_witness :
    8 ≤ ([0, 0, 0, 129, 0, 0, 0, 0] : List Nat).length ∧
      Values.cvd [0, 0, 0, 129, 0, 0, 0, 0] =
        .ok (.flt (doubleFromBytes (([0, 0, 0, 129, 0, 0, 0, 0] : List Nat).take 8))) :=
  ⟨by decide, (c8_cv_length_rules [0, 0, 0, 129, 0, 0, 0, 0]).2.2.2.2.2 (by decide)⟩

/-- C9: `INSTR` with an empty search string and a start position inside a
non-empty string returns Integer(start): the empty substring is found
immediately.  (BASIC strings carry at most 255 bytes.) -/
theorem c9_instr_empty_small (big : List Nat) (start : Int) (hne : big ≠ [])
    (h1 : 1 ≤ start) (h2 : start ≤ (big.length : Int)) (h255 : big.length ≤ 255) :
    Values.instr big [] start = .ok (.int start.toNat) := by
  unfold Values.instr
  rw [if_neg (by push_neg; exact ⟨hne, by omega⟩)]
  have hfind : strFind (big.drop (start - 1).toNat) [] = 0 := by
    unfold strFind
    have hrange : List.range ((big.drop (start - 1).toNat).length + 1) =
        0 :: (List.range (big.drop (start - 1).toNat).length).map (· + 1) :=
      List.range_succ_eq_map _
    rw [hrange]
    simp [List.find?, List.isPrefixOf]
  rw [hfind]
  rw [if_neg (by decide)]
  unfold from_int_signed
  rw [if_pos (by constructor <;> omega)]
  have hs0 : start + 0 = start := by omega
  rw [hs0]
  show Except.ok (Value.int ((start % 65536).toNat)) = Except.ok (Value.int start.toNat)
  rw [Int.emod_eq_of_lt (by omega) (by omega)]

/-- Witness for C9 at `big = "ABC"`, `start = 2`. -/
theorem c9_witness : Values.instr [65, 66, 67] [] 2 = .ok (.int 2) :=
  c9_instr_empty_small [65, 66, 67] 2 (by decide) (by decide) (by decide) (by decide)

/-- C10: `CVI`/`CVS`/`CVD` depend only on the first 2/4/8 bytes of a
sufficiently long argument; trailing bytes are ignored. -/
theorem c10_cv_depends_on_head (s t : List Nat) :
    (2 ≤ s.length → 2 ≤ t.length → s.take 2 = t.take 2 → Values.cvi s = Values.cvi t) ∧
    (4 ≤ s.length → 4 ≤ t.length → s.take 4 = t.take 4 → Values.cvs s = Values.cvs t) ∧
    (8 ≤ s.length → 8 ≤ t.length → s.take 8 = t.take 8 → Values.cvd s = Values.cvd t) := by
  unfold Values.cvi Values.cvs Values.cvd
  refine ⟨fun hs ht he => ?_, fun hs ht he => ?_, fun hs ht he => ?_⟩ <;>
    rw [if_neg (by omega), if_neg (by omega), he]

/-- Witness for C10: two strings sharing their first two bytes decode alike
under `CVI`. -/
theorem c10_witness :
    2 ≤ ([1, 2, 9] : List Nat).length ∧ 2 ≤ ([1, 2, 7, 7] : List Nat).length ∧
      ([1, 2, 9] : List Nat).take 2 = ([1, 2, 7, 7] : List Nat).take 2 ∧
      Values.cvi [1, 2, 9] = Values.cvi [1, 2, 7, 7] :=
  ⟨by decide, by decide, by decide,
    (c10_cv_depends_on_head [1, 2, 9] [1, 2, 7, 7]).1 (by decide) (by decide) (by decide)⟩
